import Mathlib

/-!
# Verification of `statsbox.simulation.montecarlo`

A shallow embedding of `src/statsbox/simulation/montecarlo.py`.

Modelling conventions:

* Sample values (numpy floating-point arrays) are modelled as lists of
  rationals (`List ℚ`); the spec treats them as real numbers and every
  statistic in the claims is rational-valued except the standard deviation,
  see below.
* `MonteCarlo.__init__` is fallible (it raises `ValueError` on mismatched
  sequence lengths), so it is embedded as `MonteCarlo.init` returning
  `Except String MonteCarlo`.
* The numpy random source `self._rng` is modelled as an abstract stream
  `rng : Nat → ℚ` of standard-normal draws; `_rng.normal(mean, std_dev, n)`
  draws `n` values `mean + std_dev * z` from the stream.  Only the shape of
  the generated data is relevant to the claims, never the values.
* `np.sort` returns the ascending sorted permutation of an array; it is
  embedded as `List.insertionSort (· ≤ ·)`.
* `np.std` is the population standard deviation, i.e. the non-negative
  square root of the population variance.  The square root of a rational is
  in general irrational, so `PoolStats` stores the population variance in
  its `var` field and a claim "the standard deviation is `s`" is stated as
  `stdIs p s`, i.e. `0 ≤ s ∧ p.var = some (s ^ 2)`, which characterises
  `s = √(variance)` exactly.
* `np.nan` (the not-a-number sentinel used for the statistics of an empty
  pool) is modelled by `Option ℚ` with `none` as the sentinel.
-/

/-- The 6-tuple `(values, min, mean, median, max, std)` returned by
`apply_criteria` for one pool, with `np.nan` modelled as `none` and the
standard deviation represented by the population variance `var`
(std = √var, see module docstring). -/
structure PoolStats where
  values : List ℚ
  min : Option ℚ
  mean : Option ℚ
  median : Option ℚ
  max : Option ℚ
  var : Option ℚ
  deriving Repr, DecidableEq

/-- The all-sentinel result produced for an empty pool:
`(np.array([]), np.nan, np.nan, np.nan, np.nan, np.nan)`. -/
def PoolStats.empty : PoolStats := ⟨[], none, none, none, none, none⟩

/-- `0 ≤ s` and `s^2` is the stored population variance: exactly the
statement that the population standard deviation (`np.std`) equals `s`. -/
def stdIs (p : PoolStats) (s : ℚ) : Prop := 0 ≤ s ∧ p.var = some (s ^ 2)

instance (p : PoolStats) (s : ℚ) : Decidable (stdIs p s) := by
  unfold stdIs; infer_instance

/-- `np.sort`: the ascending sorted permutation of a list. -/
def sortAsc (l : List ℚ) : List ℚ := List.insertionSort (· ≤ ·) l

/-- `np.mean`: arithmetic mean. -/
def listMean (l : List ℚ) : ℚ := l.sum / l.length

/-- `np.median` of an already sorted array: middle element for odd length,
average of the two middle elements for even length. -/
def medianSorted (s : List ℚ) : ℚ :=
  if s.length % 2 = 1 then s.getD (s.length / 2) 0
  else (s.getD (s.length / 2 - 1) 0 + s.getD (s.length / 2) 0) / 2

/-- The population variance, i.e. the square of `np.std`. -/
def popVariance (l : List ℚ) : ℚ :=
  (l.map fun x => (x - listMean l) ^ 2).sum / l.length

/-- The `if false_neg_idx.size != 0` / `else` block of `apply_criteria`,
applied to the selected (misclassified) samples of one pool: sort them and
compute the five statistics, or return the all-sentinel tuple when the
selection is empty (`np.min`/`np.max` of a sorted non-empty array are its
first and last elements). -/
def mkStats (sel : List ℚ) : PoolStats :=
  if sel.length ≠ 0 then
    ⟨sortAsc sel, some ((sortAsc sel).headD 0), some (listMean (sortAsc sel)),
      some (medianSorted (sortAsc sel)), some ((sortAsc sel).getLastD 0),
      some (popVariance (sortAsc sel))⟩
  else ⟨[], none, none, none, none, none⟩

/-- One step of the inner loop of `apply_criteria`:
`all_dists[(idx == control_idx) + FAIL] = concatenate(...)`, where the
accumulator pair is `(all_dists[FAIL], all_dists[PASS])`, `FAIL = 0`,
`PASS = 1`, and `p = (idx, dist)` comes from `enumerate(dists)`. -/
def poolStep (control_idx : Int) (acc : List ℚ × List ℚ) (p : Nat × List ℚ) :
    List ℚ × List ℚ :=
  if (p.1 : Int) = control_idx then (acc.1, acc.2 ++ p.2)
  else (acc.1 ++ p.2, acc.2)

/-- The double loop of `apply_criteria` that concatenates every category of
every walk into the non-control pool `all_dists[FAIL]` (first component) or
the control pool `all_dists[PASS]` (second component), starting from the
two empty arrays. -/
def accumDists (control_idx : Int) (walks : List (List (List ℚ))) :
    List ℚ × List ℚ :=
  walks.foldl (fun acc dists => dists.enum.foldl (poolStep control_idx) acc)
    ([], [])

/-- `MonteCarlo.apply_criteria`: pool the samples of all walks into the
non-control (`FAIL`) and control (`PASS`) pools, select the false negatives
(non-control samples strictly below `criteria`, via
`np.where(all_dists[FAIL] < criteria)`) and the false positives (control
samples strictly above `criteria`), and return the statistics of the two
selections.  `walks` is the sequence produced by `gen_dists` (or an
equivalent pre-computed set); `test_cri` is the `test_cri='__lt__'`
parameter, which the body of the Python function never reads. -/
def apply_criteria (walks : List (List (List ℚ))) (control_idx : Int)
    (criteria : ℚ) (test_cri : String) : PoolStats × PoolStats :=
  (mkStats ((accumDists control_idx walks).1.filter fun x => x < criteria),
    mkStats ((accumDists control_idx walks).2.filter fun x => criteria < x))

/-- The state stored by a successfully constructed `MonteCarlo` object. -/
structure MonteCarlo where
  means : List ℚ
  std_devs : List ℚ
  samples : List Nat
  walks : Nat
  categories : Nat
  deriving Repr, DecidableEq

/-- `MonteCarlo.__init__`: raise `ValueError` when
`len(means) != len(std_dev) or len(means) != len(samples)`, otherwise store
the parameters and `categories = len(means)`. -/
def MonteCarlo.init (means : List ℚ) (std_dev : List ℚ) (samples : List Nat)
    (walks : Nat) : Except String MonteCarlo :=
  if means.length ≠ std_dev.length ∨ means.length ≠ samples.length then
    Except.error
      "number of categories for means, std_dev and samples are unequal"
  else Except.ok ⟨means, std_dev, samples, walks, means.length⟩

/-- `self._rng.normal(mean, std_dev, samples)`: draw `samples` values from
`Normal(mean, std_dev)`, modelled as `mean + std_dev * z` over the abstract
standard-normal stream `rng`, consuming positions `k, k+1, ...`. -/
def normalDraw (rng : Nat → ℚ) (k : Nat) (mean std_dev : ℚ) (samples : Nat) :
    List ℚ :=
  (List.range samples).map fun i => mean + std_dev * rng (k + i)

/-- The inner loop of `gen_dists`: one walk's `dists` list, one entry per
`(mean, std_dev, samples)` triple of `zip(means, std_devs, samples)`,
threading the position in the random stream. -/
def genWalk (rng : Nat → ℚ) : Nat → List (ℚ × ℚ × Nat) → List (List ℚ) × Nat
  | k, [] => ([], k)
  | k, p :: ps =>
    let rest := genWalk rng (k + p.2.2) ps
    (normalDraw rng k p.1 p.2.1 p.2.2 :: rest.1, rest.2)

/-- The outer loop of `gen_dists`: `for _ in range(self.walks)`, yielding
one `dists` list per walk. -/
def genDistsGo (rng : Nat → ℚ) (params : List (ℚ × ℚ × Nat)) :
    Nat → Nat → List (List (List ℚ))
  | 0, _ => []
  | w + 1, k =>
    let walk := genWalk rng k params
    walk.1 :: genDistsGo rng params w walk.2

/-- `MonteCarlo.gen_dists`: the (finite, lazy in Python) sequence of
`self.walks` walk results, each with one sample array per
`zip(self.means, self.std_devs, self.samples)` triple. -/
def MonteCarlo.gen_dists (mc : MonteCarlo) (rng : Nat → ℚ) :
    List (List (List ℚ)) :=
  genDistsGo rng (mc.means.zip (mc.std_devs.zip mc.samples)) mc.walks 0

/-- The multiset of samples that category `idx` contributes across all
walks (a walk with fewer than `idx + 1` categories contributes nothing). -/
def catSamples (walks : List (List (List ℚ))) (idx : Nat) : Multiset ℚ :=
  (walks.map fun dists => ((dists.getD idx []) : Multiset ℚ)).sum

/-- Recursive characterisation of the non-control pool contributed by one
enumerated walk. -/
def enumFail (control_idx : Int) : List (Nat × List ℚ) → List ℚ
  | [] => []
  | p :: ps =>
    if (p.1 : Int) = control_idx then enumFail control_idx ps
    else p.2 ++ enumFail control_idx ps

/-- Recursive characterisation of the control pool contributed by one
enumerated walk. -/
def enumPass (control_idx : Int) : List (Nat × List ℚ) → List ℚ
  | [] => []
  | p :: ps =>
    if (p.1 : Int) = control_idx then p.2 ++ enumPass control_idx ps
    else enumPass control_idx ps

/-- Recursive characterisation of the whole non-control pool. -/
def failPool (control_idx : Int) : List (List (List ℚ)) → List ℚ
  | [] => []
  | w :: ws => enumFail control_idx w.enum ++ failPool control_idx ws

/-- Recursive characterisation of the whole control pool. -/
def passPool (control_idx : Int) : List (List (List ℚ)) → List ℚ
  | [] => []
  | w :: ws => enumPass control_idx w.enum ++ passPool control_idx ws

-- ### Basic lemmas about the pooling loops

theorem foldl_poolStep (c : Int) (ps : List (Nat × List ℚ)) :
    ∀ acc : List ℚ × List ℚ,
      ps.foldl (poolStep c) acc = (acc.1 ++ enumFail c ps, acc.2 ++ enumPass c ps) := by
  induction ps with
  | nil => intro acc; simp [enumFail, enumPass]
  | cons p ps ih =>
    intro acc
    by_cases h : (p.1 : Int) = c <;>
      simp [poolStep, enumFail, enumPass, h, ih, List.append_assoc]

theorem accumDists_eq (c : Int) (walks : List (List (List ℚ))) :
    accumDists c walks = (failPool c walks, passPool c walks) := by
  suffices h : ∀ acc : List ℚ × List ℚ,
      walks.foldl (fun acc dists => dists.enum.foldl (poolStep c) acc) acc =
        (acc.1 ++ failPool c walks, acc.2 ++ passPool c walks) by
    simpa [accumDists] using h ([], [])
  induction walks with
  | nil => intro acc; simp [failPool, passPool]
  | cons w ws ih =>
    intro acc
    simp only [List.foldl_cons]
    rw [foldl_poolStep c w.enum acc, ih]
    simp [failPool, passPool, List.append_assoc]

-- ### Sorting lemmas

theorem sortAsc_sorted (l : List ℚ) : List.Sorted (· ≤ ·) (sortAsc l) :=
  List.sorted_insertionSort _ l

theorem sortAsc_perm (l : List ℚ) : (sortAsc l).Perm l :=
  List.perm_insertionSort _ l

theorem sortAsc_eq_of_perm {l1 l2 : List ℚ} (h : l1.Perm l2) :
    sortAsc l1 = sortAsc l2 :=
  List.eq_of_perm_of_sorted ((sortAsc_perm l1).trans (h.trans (sortAsc_perm l2).symm))
    (sortAsc_sorted l1) (sortAsc_sorted l2)

theorem mkStats_congr {l1 l2 : List ℚ} (h : l1.Perm l2) :
    mkStats l1 = mkStats l2 := by
  unfold mkStats
  rw [h.length_eq, sortAsc_eq_of_perm h]

-- ### The pools as multisets of per-category contributions

theorem enumFail_multiset (c : Int) (ds : List (List ℚ)) :
    ∀ k : Nat, (↑(enumFail c (List.enumFrom k ds)) : Multiset ℚ) =
      ∑ j ∈ Finset.range ds.length,
        if ((k + j : Nat) : Int) = c then 0 else ↑(ds.getD j []) := by
  induction ds with
  | nil => intro k; simp [enumFail]
  | cons d ds ih =>
    intro k
    rw [List.enumFrom_cons, List.length_cons, Finset.sum_range_succ']
    have hshift : (∑ j ∈ Finset.range ds.length,
        if ((k + (j + 1) : Nat) : Int) = c then (0 : Multiset ℚ)
        else ↑((d :: ds).getD (j + 1) [])) =
        ∑ j ∈ Finset.range ds.length,
          if ((k + 1 + j : Nat) : Int) = c then (0 : Multiset ℚ)
          else ↑(ds.getD j []) := by
      refine Finset.sum_congr rfl fun j _ => ?_
      rw [List.getD_cons_succ, show k + (j + 1) = k + 1 + j by omega]
    rw [hshift, ← ih (k + 1)]
    by_cases h : ((k : Nat) : Int) = c
    · simp [enumFail, h]
    · simp only [enumFail, h, if_false, Nat.add_zero, List.getD_cons_zero,
        ← Multiset.coe_add]
      rw [add_comm]

theorem enumPass_multiset (c : Int) (ds : List (List ℚ)) :
    ∀ k : Nat, (↑(enumPass c (List.enumFrom k ds)) : Multiset ℚ) =
      ∑ j ∈ Finset.range ds.length,
        if ((k + j : Nat) : Int) = c then ↑(ds.getD j []) else 0 := by
  induction ds with
  | nil => intro k; simp [enumPass]
  | cons d ds ih =>
    intro k
    rw [List.enumFrom_cons, List.length_cons, Finset.sum_range_succ']
    have hshift : (∑ j ∈ Finset.range ds.length,
        if ((k + (j + 1) : Nat) : Int) = c then (↑((d :: ds).getD (j + 1) []) : Multiset ℚ)
        else 0) =
        ∑ j ∈ Finset.range ds.length,
          if ((k + 1 + j : Nat) : Int) = c then (↑(ds.getD j []) : Multiset ℚ)
          else 0 := by
      refine Finset.sum_congr rfl fun j _ => ?_
      rw [List.getD_cons_succ, show k + (j + 1) = k + 1 + j by omega]
    rw [hshift, ← ih (k + 1)]
    by_cases h : ((k : Nat) : Int) = c
    · simp only [enumPass, h, if_true, Nat.add_zero, List.getD_cons_zero,
        ← Multiset.coe_add]
      rw [add_comm]
    · simp [enumPass, h]

/-- Upper bound on the number of categories appearing in any walk. -/
def maxLen (walks : List (List (List ℚ))) : Nat :=
  (walks.map List.length).foldr max 0

theorem length_le_maxLen :
    ∀ {walks : List (List (List ℚ))} {w : List (List ℚ)},
      w ∈ walks → w.length ≤ maxLen walks := by
  intro walks
  induction walks with
  | nil => intro w h; cases h
  | cons a ws ih =>
    intro w h
    rcases List.mem_cons.mp h with rfl | h'
    · exact le_max_left _ _
    · exact le_trans (ih h') (le_max_right _ _)

theorem failPool_multiset (c : Int) :
    ∀ (walks : List (List (List ℚ))) (N : Nat), (∀ w ∈ walks, w.length ≤ N) →
      (↑(failPool c walks) : Multiset ℚ) =
        ∑ j ∈ Finset.range N,
          if ((j : Nat) : Int) = c then 0 else catSamples walks j := by
  intro walks
  induction walks with
  | nil => intro N _; simp [failPool, catSamples]
  | cons w ws ih =>
    intro N hN
    have hw : w.length ≤ N := hN w (by simp)
    have hws : ∀ u ∈ ws, u.length ≤ N := fun u hu => hN u (by simp [hu])
    have henum : w.enum = List.enumFrom 0 w := rfl
    rw [failPool, ← Multiset.coe_add, henum, enumFail_multiset, ih N hws]
    have hext : (∑ j ∈ Finset.range w.length,
        if ((0 + j : Nat) : Int) = c then (0 : Multiset ℚ) else ↑(w.getD j [])) =
        ∑ j ∈ Finset.range N,
          if ((j : Nat) : Int) = c then (0 : Multiset ℚ) else ↑(w.getD j []) := by
      simp only [Nat.zero_add]
      refine Finset.sum_subset (Finset.range_subset.mpr hw) fun j _ hj => ?_
      rw [List.getD_eq_default _ _ (by simpa using hj)]
      simp
    rw [hext, ← Finset.sum_add_distrib]
    refine Finset.sum_congr rfl fun j _ => ?_
    rw [ite_add_ite]
    simp [catSamples]

theorem passPool_multiset (c : Int) :
    ∀ (walks : List (List (List ℚ))) (N : Nat), (∀ w ∈ walks, w.length ≤ N) →
      (↑(passPool c walks) : Multiset ℚ) =
        ∑ j ∈ Finset.range N,
          if ((j : Nat) : Int) = c then catSamples walks j else 0 := by
  intro walks
  induction walks with
  | nil => intro N _; simp [passPool, catSamples]
  | cons w ws ih =>
    intro N hN
    have hw : w.length ≤ N := hN w (by simp)
    have hws : ∀ u ∈ ws, u.length ≤ N := fun u hu => hN u (by simp [hu])
    have henum : w.enum = List.enumFrom 0 w := rfl
    rw [passPool, ← Multiset.coe_add, henum, enumPass_multiset, ih N hws]
    have hext : (∑ j ∈ Finset.range w.length,
        if ((0 + j : Nat) : Int) = c then (↑(w.getD j []) : Multiset ℚ) else 0) =
        ∑ j ∈ Finset.range N,
          if ((j : Nat) : Int) = c then (↑(w.getD j []) : Multiset ℚ) else 0 := by
      simp only [Nat.zero_add]
      refine Finset.sum_subset (Finset.range_subset.mpr hw) fun j _ hj => ?_
      rw [List.getD_eq_default _ _ (by simpa using hj)]
      simp
    rw [hext, ← Finset.sum_add_distrib]
    refine Finset.sum_congr rfl fun j _ => ?_
    rw [ite_add_ite]
    simp [catSamples]

theorem failPool_perm_of_catSamples {w1 w2 : List (List (List ℚ))} (c : Int)
    (h : ∀ j, catSamples w1 j = catSamples w2 j) :
    (failPool c w1).Perm (failPool c w2) := by
  rw [← Multiset.coe_eq_coe,
    failPool_multiset c w1 (max (maxLen w1) (maxLen w2))
      (fun u hu => le_trans (length_le_maxLen hu) (le_max_left _ _)),
    failPool_multiset c w2 (max (maxLen w1) (maxLen w2))
      (fun u hu => le_trans (length_le_maxLen hu) (le_max_right _ _))]
  exact Finset.sum_congr rfl fun j _ => by rw [h j]

theorem passPool_perm_of_catSamples {w1 w2 : List (List (List ℚ))} (c : Int)
    (h : ∀ j, catSamples w1 j = catSamples w2 j) :
    (passPool c w1).Perm (passPool c w2) := by
  rw [← Multiset.coe_eq_coe,
    passPool_multiset c w1 (max (maxLen w1) (maxLen w2))
      (fun u hu => le_trans (length_le_maxLen hu) (le_max_left _ _)),
    passPool_multiset c w2 (max (maxLen w1) (maxLen w2))
      (fun u hu => le_trans (length_le_maxLen hu) (le_max_right _ _))]
  exact Finset.sum_congr rfl fun j _ => by rw [h j]

-- ### apply_criteria in terms of the recursive pools

theorem apply_criteria_pools (walks : List (List (List ℚ))) (control_idx : Int)
    (criteria : ℚ) (test_cri : String) :
    apply_criteria walks control_idx criteria test_cri =
      (mkStats ((failPool control_idx walks).filter fun x => x < criteria),
        mkStats ((passPool control_idx walks).filter fun x => criteria < x)) := by
  unfold apply_criteria
  rw [accumDists_eq]

-- ### Shape of the generated distributions

theorem genWalk_length (rng : Nat → ℚ) (params : List (ℚ × ℚ × Nat)) :
    ∀ k : Nat, ((genWalk rng k params).1).length = params.length := by
  induction params with
  | nil => intro k; simp [genWalk]
  | cons p ps ih => intro k; simp [genWalk, ih]

theorem genWalk_getD_length (rng : Nat → ℚ) (params : List (ℚ × ℚ × Nat)) :
    ∀ (k i : Nat), i < params.length →
      (((genWalk rng k params).1).getD i []).length = (params.getD i (0, 0, 0)).2.2 := by
  induction params with
  | nil => intro k i h; cases h
  | cons p ps ih =>
    intro k i h
    cases i with
    | zero => simp [genWalk, normalDraw]
    | succ n =>
      have : ((genWalk rng k (p :: ps)).1).getD (n + 1) [] =
          ((genWalk rng (k + p.2.2) ps).1).getD n [] := rfl
      rw [this, List.getD_cons_succ]
      exact ih (k + p.2.2) n (by simpa using h)

theorem genDistsGo_length (rng : Nat → ℚ) (params : List (ℚ × ℚ × Nat)) :
    ∀ (w k : Nat), (genDistsGo rng params w k).length = w := by
  intro w
  induction w with
  | zero => intro k; simp [genDistsGo]
  | succ n ih => intro k; simp [genDistsGo, ih]

theorem genDistsGo_mem (rng : Nat → ℚ) (params : List (ℚ × ℚ × Nat)) :
    ∀ (w k : Nat) (d : List (List ℚ)), d ∈ genDistsGo rng params w k →
      ∃ k0, d = (genWalk rng k0 params).1 := by
  intro w
  induction w with
  | zero => intro k d h; cases h
  | succ n ih =>
    intro k d h
    simp only [genDistsGo] at h
    rcases List.mem_cons.mp h with rfl | h'
    · exact ⟨k, rfl⟩
    · exact ih _ d h'

-- ### Well-formedness of the returned statistics

/-- Every statistic of the pool is the not-a-number sentinel. -/
def allNaN (p : PoolStats) : Prop :=
  p.min = none ∧ p.mean = none ∧ p.median = none ∧ p.max = none ∧ p.var = none

/-- Every statistic of the pool carries an actual number. -/
def allDefined (p : PoolStats) : Prop :=
  p.min.isSome ∧ p.mean.isSome ∧ p.median.isSome ∧ p.max.isSome ∧ p.var.isSome

/-- Well-defined output for one pool: the value sequence is sorted
ascending, and either the pool is empty with every statistic the sentinel,
or it is non-empty with every statistic an actual number. -/
def wellFormedPool (p : PoolStats) : Prop :=
  p.values.Sorted (· ≤ ·) ∧
    ((p.values = [] ∧ allNaN p) ∨ (p.values ≠ [] ∧ allDefined p))

theorem mkStats_wellFormed (sel : List ℚ) : wellFormedPool (mkStats sel) := by
  unfold wellFormedPool mkStats
  by_cases h : sel.length ≠ 0
  · rw [if_pos h]
    refine ⟨sortAsc_sorted sel, Or.inr ⟨?_, by simp [allDefined]⟩⟩
    intro hemp
    have hemp' : sortAsc sel = [] := hemp
    exact h (by rw [← (sortAsc_perm sel).length_eq, hemp']; rfl)
  · rw [if_neg h]
    exact ⟨List.sorted_nil, Or.inl ⟨rfl, by simp [allNaN]⟩⟩

theorem mkStats_eq_empty_of_values_nil (sel : List ℚ)
    (h : (mkStats sel).values = []) : mkStats sel = PoolStats.empty := by
  rcases sel with _ | ⟨a, l⟩
  · rfl
  · exfalso
    have hlen : (a :: l).length ≠ 0 := by simp
    have hv : (mkStats (a :: l)).values = sortAsc (a :: l) := by
      unfold mkStats
      rw [if_pos hlen]
    rw [hv] at h
    have hl := (sortAsc_perm (a :: l)).length_eq
    rw [h] at hl
    simp at hl

-- ### Pools when the control index matches no category

theorem enumPass_eq_nil (c : Int) (ds : List (List ℚ)) :
    ∀ k : Nat, (∀ j, j < ds.length → ((k + j : Nat) : Int) ≠ c) →
      enumPass c (List.enumFrom k ds) = [] := by
  induction ds with
  | nil => intro k _; simp [enumPass]
  | cons d ds ih =>
    intro k h
    rw [List.enumFrom_cons]
    have h0 : ((k : Nat) : Int) ≠ c := by simpa using h 0 (by simp)
    simp only [enumPass, h0, if_false]
    exact ih (k + 1) fun j hj => by
      have hh := h (j + 1) (by simpa using Nat.succ_lt_succ hj)
      rwa [show k + (j + 1) = k + 1 + j by omega] at hh

theorem enumFail_eq_flatten (c : Int) (ds : List (List ℚ)) :
    ∀ k : Nat, (∀ j, j < ds.length → ((k + j : Nat) : Int) ≠ c) →
      enumFail c (List.enumFrom k ds) = ds.flatten := by
  induction ds with
  | nil => intro k _; simp [enumFail]
  | cons d ds ih =>
    intro k h
    rw [List.enumFrom_cons]
    have h0 : ((k : Nat) : Int) ≠ c := by simpa using h 0 (by simp)
    simp only [enumFail, h0, if_false, List.flatten_cons]
    rw [ih (k + 1) fun j hj => ?_]
    have hh := h (j + 1) (by simpa using Nat.succ_lt_succ hj)
    rwa [show k + (j + 1) = k + 1 + j by omega] at hh

theorem passPool_eq_nil (c : Int) :
    ∀ walks : List (List (List ℚ)),
      (∀ w ∈ walks, ∀ j, j < w.length → ((j : Nat) : Int) ≠ c) →
      passPool c walks = [] := by
  intro walks
  induction walks with
  | nil => intro _; rfl
  | cons w ws ih =>
    intro h
    rw [passPool]
    have henum : w.enum = List.enumFrom 0 w := rfl
    rw [henum, enumPass_eq_nil c w 0 (fun j hj => by simpa using h w (by simp) j hj),
      List.nil_append]
    exact ih fun u hu => h u (by simp [hu])

theorem failPool_eq_flatten (c : Int) :
    ∀ walks : List (List (List ℚ)),
      (∀ w ∈ walks, ∀ j, j < w.length → ((j : Nat) : Int) ≠ c) →
      failPool c walks = (walks.map List.flatten).flatten := by
  intro walks
  induction walks with
  | nil => intro _; rfl
  | cons w ws ih =>
    intro h
    rw [failPool]
    have henum : w.enum = List.enumFrom 0 w := rfl
    rw [henum, enumFail_eq_flatten c w 0 (fun j hj => by simpa using h w (by simp) j hj)]
    rw [List.map_cons, List.flatten_cons, ih fun u hu => h u (by simp [hu])]

-- ### The claims

/-- **C1**: for the single walk `[12,11,10,9,8]`, `[6,5,4,3,2]` (non-control),
`[6,5,4,3,2]` (control, index 2) with threshold 4, `apply_criteria` returns a
false-negative pool with sorted values `[2,3]`, minimum 2, maximum 3, mean 5/2,
median 5/2 and population standard deviation 1/2 (variance 1/4), and a
false-positive pool with sorted values `[5,6]`, minimum 5, maximum 6, mean 11/2,
median 11/2 and population standard deviation 1/2 (variance 1/4). -/
theorem claim_c1_scenario_a :
    apply_criteria [[[12, 11, 10, 9, 8], [6, 5, 4, 3, 2], [6, 5, 4, 3, 2]]] 2 4 "__lt__" =
      (⟨[2, 3], some 2, some (5 / 2), some (5 / 2), some 3, some (1 / 4)⟩,
        ⟨[5, 6], some 5, some (11 / 2), some (11 / 2), some 6, some (1 / 4)⟩) ∧
    stdIs (apply_criteria [[[12, 11, 10, 9, 8], [6, 5, 4, 3, 2], [6, 5, 4, 3, 2]]]
      2 4 "__lt__").1 (1 / 2) ∧
    stdIs (apply_criteria [[[12, 11, 10, 9, 8], [6, 5, 4, 3, 2], [6, 5, 4, 3, 2]]]
      2 4 "__lt__").2 (1 / 2) := by
  refine ⟨?_, ?_, ?_⟩ <;>
    norm_num [apply_criteria, accumDists_eq, failPool, passPool, enumFail, enumPass,
      List.enum, List.enumFrom, mkStats, sortAsc, List.insertionSort, List.orderedInsert,
      listMean, medianSorted, popVariance, stdIs]

/-- **C2** (code bug): the docstring of `apply_criteria` (and the spec) present
`control_idx = -1` as the index of the control category, i.e. the last one, but
the pooling test `idx == control_idx` compares `enumerate` indices (0-based) to
`-1`, which never matches: with the default the control pool is empty and the
false-positive component is the all-sentinel tuple, while `control_idx = 1`
(the last of two categories) puts `[10]` in the control pool.  Evaluation of
the code at the failing input. -/
theorem claim_c2_default_control_divergence :
    (apply_criteria [[[0], [10]]] (-1) 5 "__lt__").2 = PoolStats.empty ∧
    (apply_criteria [[[0], [10]]] 1 5 "__lt__").2 =
      ⟨[10], some 10, some 10, some 10, some 10, some 0⟩ ∧
    apply_criteria [[[0], [10]]] (-1) 5 "__lt__" ≠
      apply_criteria [[[0], [10]]] 1 5 "__lt__" := by
  refine ⟨?_, ?_, ?_⟩ <;>
    norm_num [apply_criteria, accumDists_eq, failPool, passPool, enumFail, enumPass,
      List.enum, List.enumFrom, mkStats, sortAsc, List.insertionSort, List.orderedInsert,
      listMean, medianSorted, popVariance, PoolStats.empty]

/-- Counterexample to **C3** as stated: for the walk `[12,11,10,9,8]`,
`[6,5,4,3,2]`, `[6,5,4,3,2]` with control index 2 and threshold 5, the pools
are NOT both empty (the non-control values 4, 3, 2 lie below 5 and the control
value 6 lies above 5). -/
theorem claim_c3_counterexample :
    (apply_criteria [[[12, 11, 10, 9, 8], [6, 5, 4, 3, 2], [6, 5, 4, 3, 2]]]
      2 5 "__lt__").1.values ≠ [] ∧
    (apply_criteria [[[12, 11, 10, 9, 8], [6, 5, 4, 3, 2], [6, 5, 4, 3, 2]]]
      2 5 "__lt__").2.values ≠ [] := by
  refine ⟨?_, ?_⟩ <;>
  · norm_num [apply_criteria, accumDists_eq, failPool, passPool, enumFail, enumPass,
      List.enum, List.enumFrom, mkStats, sortAsc, List.insertionSort, List.orderedInsert,
      listMean, medianSorted, popVariance]
    try exact List.cons_ne_nil _ _

/-- **C3 amended**: at that input `apply_criteria` returns a false-negative
pool `[2,3,4]` (min 2, mean 3, median 3, max 4, population variance 2/3) and a
false-positive pool `[6]` (min = mean = median = max = 6, population standard
deviation 0). -/
theorem claim_c3_amended_scenario_b :
    apply_criteria [[[12, 11, 10, 9, 8], [6, 5, 4, 3, 2], [6, 5, 4, 3, 2]]] 2 5 "__lt__" =
      (⟨[2, 3, 4], some 2, some 3, some 3, some 4, some (2 / 3)⟩,
        ⟨[6], some 6, some 6, some 6, some 6, some 0⟩) ∧
    stdIs (apply_criteria [[[12, 11, 10, 9, 8], [6, 5, 4, 3, 2], [6, 5, 4, 3, 2]]]
      2 5 "__lt__").2 0 := by
  refine ⟨?_, ?_⟩ <;>
    norm_num [apply_criteria, accumDists_eq, failPool, passPool, enumFail, enumPass,
      List.enum, List.enumFrom, mkStats, sortAsc, List.insertionSort, List.orderedInsert,
      listMean, medianSorted, popVariance, stdIs]

/-- **C4**: construction fails with the configuration error (`ValueError`)
iff the three per-category sequences do not all have the same length, and
succeeds (producing an instance) iff they do; the walk count `walks` is
universally quantified, so it places no constraint on construction. -/
theorem claim_c4_init_error_iff (means : List ℚ) (std_dev : List ℚ)
    (samples : List Nat) (walks : Nat) :
    ((∃ e, MonteCarlo.init means std_dev samples walks = Except.error e) ↔
      ¬(means.length = std_dev.length ∧ means.length = samples.length)) ∧
    ((∃ mc, MonteCarlo.init means std_dev samples walks = Except.ok mc) ↔
      (means.length = std_dev.length ∧ means.length = samples.length)) := by
  unfold MonteCarlo.init
  by_cases h : means.length ≠ std_dev.length ∨ means.length ≠ samples.length
  · rw [if_pos h]
    refine ⟨⟨fun _ => not_and_or.mpr h, fun _ => ⟨_, rfl⟩⟩, ?_, ?_⟩
    · rintro ⟨mc, hmc⟩; cases hmc
    · intro hl; exact absurd hl (not_and_or.mpr h)
  · rw [if_neg h]
    push_neg at h
    refine ⟨⟨?_, fun hl => absurd ⟨h.1, h.2⟩ hl⟩, fun _ => ⟨h.1, h.2⟩, fun _ => ⟨_, rfl⟩⟩
    rintro ⟨e, he⟩; cases he

/-- **C7**: the result of `apply_criteria` does not depend on the `test_cri`
parameter — the function body never reads it, always selecting false
negatives by strict less-than and false positives by strict greater-than. -/
theorem claim_c7_test_cri_independent (walks : List (List (List ℚ)))
    (control_idx : Int) (criteria : ℚ) (t1 t2 : String) :
    apply_criteria walks control_idx criteria t1 =
      apply_criteria walks control_idx criteria t2 := rfl

/-- Shape of `gen_dists` output for any internally consistent simulator
state (the state produced by a successful `MonteCarlo.init`). -/
theorem gen_dists_shape (mc : MonteCarlo) (rng : Nat → ℚ)
    (h1 : mc.means.length = mc.std_devs.length)
    (h2 : mc.means.length = mc.samples.length)
    (h3 : mc.categories = mc.means.length) :
    (mc.gen_dists rng).length = mc.walks ∧
    ∀ d ∈ mc.gen_dists rng, d.length = mc.categories ∧
      ∀ i, i < d.length → (d.getD i []).length = mc.samples.getD i 0 := by
  have hplen : (mc.means.zip (mc.std_devs.zip mc.samples)).length = mc.means.length := by
    rw [List.length_zip, List.length_zip, ← h1, ← h2]
    omega
  constructor
  · exact genDistsGo_length rng _ mc.walks 0
  · intro d hd
    obtain ⟨k0, rfl⟩ := genDistsGo_mem rng _ mc.walks 0 d hd
    refine ⟨by rw [genWalk_length, hplen, h3], ?_⟩
    intro i hi
    rw [genWalk_length] at hi
    rw [genWalk_getD_length rng _ k0 i hi]
    have him : i < mc.means.length := by rw [← hplen]; exact hi
    have his : i < mc.samples.length := by rw [← h2]; exact him
    rw [List.getD_eq_getElem _ _ hi, List.getD_eq_getElem _ _ his,
      List.getElem_zip, List.getElem_zip]

/-- **C5**: for every valid configuration, `gen_dists` yields exactly
`walks` walk results, each containing exactly `categories` arrays, where
array `i` has length `samples[i]`. -/
theorem claim_c5_gen_dists_shape (means : List ℚ) (std_dev : List ℚ)
    (samples : List Nat) (walks : Nat) (mc : MonteCarlo) (rng : Nat → ℚ)
    (h : MonteCarlo.init means std_dev samples walks = Except.ok mc) :
    (mc.gen_dists rng).length = walks ∧
    ∀ d ∈ mc.gen_dists rng, d.length = mc.categories ∧
      ∀ i, i < d.length → (d.getD i []).length = samples.getD i 0 := by
  unfold MonteCarlo.init at h
  by_cases hc : means.length ≠ std_dev.length ∨ means.length ≠ samples.length
  · rw [if_pos hc] at h; cases h
  · rw [if_neg hc] at h
    push_neg at hc
    injection h with h3
    subst h3
    exact gen_dists_shape _ rng hc.1 hc.2 rfl

/-- Witness for **C5** at a concrete configuration. -/
theorem claim_c5_witness :
    MonteCarlo.init [1, 2] [1, 1] [3, 4] 2 =
      Except.ok ⟨[1, 2], [1, 1], [3, 4], 2, 2⟩ ∧
    ((MonteCarlo.gen_dists ⟨[1, 2], [1, 1], [3, 4], 2, 2⟩ (fun _ => 0)).length = 2 ∧
      ∀ d ∈ MonteCarlo.gen_dists ⟨[1, 2], [1, 1], [3, 4], 2, 2⟩ (fun _ => 0),
        d.length = 2 ∧ ∀ i, i < d.length → (d.getD i []).length = [3, 4].getD i 0) :=
  ⟨rfl, claim_c5_gen_dists_shape [1, 2] [1, 1] [3, 4] 2 _ _ rfl⟩

/-- **C6**: whenever a misclassification pool is empty, `apply_criteria`
returns for it the empty value sequence with the not-a-number sentinel for
all five statistics, raising no error; in particular the empty walk
sequence (walk count 0) produces both pools all-sentinel. -/
theorem claim_c6_empty_pool_sentinel (walks : List (List (List ℚ)))
    (control_idx : Int) (criteria : ℚ) (test_cri : String) :
    ((apply_criteria walks control_idx criteria test_cri).1.values = [] →
      (apply_criteria walks control_idx criteria test_cri).1 = PoolStats.empty) ∧
    ((apply_criteria walks control_idx criteria test_cri).2.values = [] →
      (apply_criteria walks control_idx criteria test_cri).2 = PoolStats.empty) ∧
    apply_criteria [] control_idx criteria test_cri =
      (PoolStats.empty, PoolStats.empty) :=
  ⟨fun h => mkStats_eq_empty_of_values_nil _ h,
    fun h => mkStats_eq_empty_of_values_nil _ h, rfl⟩

/-- Witness for **C6**: a concrete input with an empty false-negative pool,
and the zero-walk input. -/
theorem claim_c6_witness :
    (apply_criteria [[[1]]] (-1) 0 "__lt__").1.values = [] ∧
    (apply_criteria [[[1]]] (-1) 0 "__lt__").1 = PoolStats.empty ∧
    apply_criteria [] (-1) 0 "__lt__" = (PoolStats.empty, PoolStats.empty) :=
  ⟨rfl, (claim_c6_empty_pool_sentinel [[[1]]] (-1) 0 "__lt__").1 rfl,
    (claim_c6_empty_pool_sentinel [] (-1) 0 "__lt__").2.2⟩

/-- **C8**: the result of `apply_criteria` is invariant under any
permutation of the input walks and of the samples within each category
across walks: two walk sequences with, per category, the same multiset of
samples produce identical results (sorted value sequences included). -/
theorem claim_c8_permutation_invariance (w1 w2 : List (List (List ℚ)))
    (control_idx : Int) (criteria : ℚ) (test_cri : String)
    (h : ∀ j, catSamples w1 j = catSamples w2 j) :
    apply_criteria w1 control_idx criteria test_cri =
      apply_criteria w2 control_idx criteria test_cri := by
  unfold apply_criteria
  rw [accumDists_eq, accumDists_eq]
  simp only [Prod.mk.injEq]
  exact ⟨mkStats_congr ((failPool_perm_of_catSamples control_idx h).filter _),
    mkStats_congr ((passPool_perm_of_catSamples control_idx h).filter _)⟩

/-- Witness for **C8**: a walk with its category-0 samples reordered. -/
theorem claim_c8_witness :
    (∀ j, catSamples [[[1, 2]]] j = catSamples [[[2, 1]]] j) ∧
    apply_criteria [[[1, 2]]] 0 2 "__lt__" =
      apply_criteria [[[2, 1]]] 0 2 "__lt__" := by
  have h : ∀ j, catSamples [[[1, 2]]] j = catSamples [[[2, 1]]] j := by
    intro j
    cases j with
    | zero => decide
    | succ n => rfl
  exact ⟨h, claim_c8_permutation_invariance _ _ 0 2 "__lt__" h⟩

/-- **C9**: once construction succeeds (with non-negative standard
deviations; sample counts are non-negative by type), simulation and scoring
are total: `gen_dists` yields its full sequence of walks and
`apply_criteria` returns well-formed, possibly sentinel-valued, output for
every control index, threshold and comparison string. -/
theorem claim_c9_no_error_after_init (means : List ℚ) (std_dev : List ℚ)
    (samples : List Nat) (walks : Nat) (mc : MonteCarlo) (rng : Nat → ℚ)
    (hstd : ∀ s ∈ std_dev, 0 ≤ s)
    (h : MonteCarlo.init means std_dev samples walks = Except.ok mc)
    (control_idx : Int) (criteria : ℚ) (test_cri : String) :
    (mc.gen_dists rng).length = mc.walks ∧
    wellFormedPool (apply_criteria (mc.gen_dists rng) control_idx criteria test_cri).1 ∧
    wellFormedPool (apply_criteria (mc.gen_dists rng) control_idx criteria test_cri).2 :=
  ⟨genDistsGo_length rng _ mc.walks 0, mkStats_wellFormed _, mkStats_wellFormed _⟩

/-- Witness for **C9** at a concrete configuration (zero standard
deviation, negative control index, threshold 0). -/
theorem claim_c9_witness :
    (∀ s ∈ [(0 : ℚ)], 0 ≤ s) ∧
    MonteCarlo.init [1] [0] [2] 1 = Except.ok ⟨[1], [0], [2], 1, 1⟩ ∧
    ((MonteCarlo.gen_dists ⟨[1], [0], [2], 1, 1⟩ (fun _ => 0)).length = 1 ∧
      wellFormedPool (apply_criteria
        (MonteCarlo.gen_dists ⟨[1], [0], [2], 1, 1⟩ (fun _ => 0)) (-1) 0 "__lt__").1 ∧
      wellFormedPool (apply_criteria
        (MonteCarlo.gen_dists ⟨[1], [0], [2], 1, 1⟩ (fun _ => 0)) (-1) 0 "__lt__").2) :=
  ⟨by decide, rfl,
    claim_c9_no_error_after_init [1] [0] [2] 1 _ (fun _ => 0) (by decide) rfl (-1) 0 "__lt__"⟩

/-- **C10**: when `control_idx` matches no category position (in the code
the `enumerate` index `idx` is a non-negative integer, so in particular the
default `-1` matches nothing), every sample of every category lands in the
non-control pool and the false-positive component is the all-sentinel empty
pool. -/
theorem claim_c10_unmatched_control (walks : List (List (List ℚ)))
    (control_idx : Int) (criteria : ℚ) (test_cri : String)
    (h : ∀ w ∈ walks, ∀ j, j < w.length → ((j : Nat) : Int) ≠ control_idx) :
    (accumDists control_idx walks).1 = (walks.map List.flatten).flatten ∧
    (apply_criteria walks control_idx criteria test_cri).2 = PoolStats.empty := by
  constructor
  · rw [accumDists_eq]
    exact failPool_eq_flatten control_idx walks h
  · have hpc : (apply_criteria walks control_idx criteria test_cri).2 =
        mkStats ((passPool control_idx walks).filter fun x => criteria < x) := by
      rw [apply_criteria_pools]
    rw [hpc, passPool_eq_nil control_idx walks h]
    rfl

/-- Witness for **C10** at the default control index `-1`. -/
theorem claim_c10_witness :
    (∀ w ∈ [[[(1 : ℚ)], [2]]], ∀ j, j < w.length → ((j : Nat) : Int) ≠ -1) ∧
    ((accumDists (-1) [[[(1 : ℚ)], [2]]]).1 =
        ([[[(1 : ℚ)], [2]]].map List.flatten).flatten ∧
      (apply_criteria [[[(1 : ℚ)], [2]]] (-1) 0 "__lt__").2 = PoolStats.empty) :=
  ⟨by decide, claim_c10_unmatched_control [[[(1 : ℚ)], [2]]] (-1) 0 "__lt__" (by decide)⟩
